import Mathlib

/-!
Verification of the sverchok repository slice consisting of
`nodes/vector/math.py` (the `VectorMathNode`) and `utils/sv_json_import.py`
(the JSON tree importer).  Python values, the node's socket state and the
importer's interaction with the host application are shallowly embedded;
functions of the source are translated one to one.  Host functions that
live outside the two files (`bpy`, `mathutils`, `data_structure.py`,
`sv_IO_panel_tools.py`) are either parameters of the model or, where the
specification describes them, modelled from the specification's words.
-/

namespace Sverchok

/-- A 3d vector, the result of `mathutils.Vector` applied to a sequence of
three numbers.  Numbers are modelled as integers: every claim under study
is structural and quantifies over the mathematical function applied. -/
abbrev V3 : Type := Int × Int × Int

/-- Python values flowing through the node: numbers, lists, tuples and
`mathutils.Vector` objects. -/
inductive PyVal : Type where
  | num : Int → PyVal
  | list : List PyVal → PyVal
  | tup : List PyVal → PyVal
  | vecObj : V3 → PyVal
deriving Repr

/-- Result of one of the `scalar_out` / `vector_out` lambdas of
`VectorMathNode.update`: a `mathutils.Vector` or a scalar. -/
inductive MathRes : Type where
  | vecR : V3 → MathRes
  | scalR : Int → MathRes
deriving Repr

namespace PyVal

/-- `mathutils.Vector(l)` on a sequence of three numbers; any other
argument raises (modelled as `none`). -/
def asVec3 : PyVal → Option V3
  | .list [.num a, .num b, .num c] => some (a, b, c)
  | .tup [.num a, .num b, .num c] => some (a, b, c)
  | .vecObj v => some v
  | _ => none

/-- Python iteration `for i in l`: lists and tuples yield their elements, a
`Vector` yields its components, a number raises `TypeError`. -/
def children : PyVal → Option (List PyVal)
  | .list xs => some xs
  | .tup xs => some xs
  | .vecObj (a, b, c) => some [.num a, .num b, .num c]
  | .num _ => none

end PyVal

/-- Sequential option-valued map over a list: the Python `for` loops of
`recurse_fx` / `recurse_fxy` that stop at the first raised exception. -/
def mapMO {α β : Type} (g : α → Option β) : List α → Option (List β)
  | [] => some []
  | a :: l => do
      let b ← g a
      let bs ← mapMO g l
      some (b :: bs)

/-- The tail of `recurse_fx` / `recurse_fxy` at `leve = 0`: with
`scalar_output_socket` set the raw result `w` is returned, otherwise
`w.to_tuple()` is taken (raising, hence `none`, when `w` is a scalar,
which has no `to_tuple`). -/
def post (sos : Bool) : MathRes → Option PyVal
  | .scalR s => if sos then some (.num s) else none
  | .vecR (a, b, c) =>
      if sos then some (.vecObj (a, b, c))
      else some (.tup [.num a, .num b, .num c])

/-- Modelled from the spec: `fullList` (from `data_structure.py`, which is
not part of the two source files) pads a list to `count` elements "by
repeating their last element to match length"; the Python function mutates
the list in place (the call site in `recurse_fxy` relies on that), which
the model renders by returning the padded list.  Padding an empty list
raises `IndexError` (`l[-1]`), hence `none`. -/
def fullList (l : List PyVal) (count : Nat) : Option (List PyVal) :=
  if count ≤ l.length then some l
  else
    match l.getLast? with
    | some x => some (l ++ List.replicate (count - l.length) x)
    | none => none

/-- `VectorMathNode.recurse_fx`: apply `f` to all values at depth `leve`,
rebuild the structure above in fresh lists.  `sos` is the node's
`scalar_output_socket`.  `none` models a raised exception. -/
def recurse_fx (sos : Bool) (f : V3 → MathRes) : Nat → PyVal → Option PyVal
  | 0, l => do
      let v ← l.asVec3
      post sos (f v)
  | leve + 1, l => do
      let cs ← l.children
      let ts ← mapMO (recurse_fx sos f leve) cs
      some (.list ts)

/-- `VectorMathNode.recurse_fxy`: at `leve = 0` apply `f` to the two
values as vectors; above, pad both lists to common length with `fullList`
(which mutates them in place) and recurse pairwise.  The in-place
mutation is modelled by state passing: the result triple is
`(returned value, final state of l1, final state of l2)`. -/
def recurse_fxy (sos : Bool) (f : V3 → V3 → MathRes) :
    Nat → PyVal → PyVal → Option (PyVal × PyVal × PyVal)
  | 0, l1, l2 => do
      let a ← l1.asVec3
      let b ← l2.asVec3
      let r ← post sos (f a b)
      some (r, l1, l2)
  | leve + 1, .list xs, .list ys => do
      let n := max xs.length ys.length
      let xs' ← fullList xs n
      let ys' ← fullList ys n
      let ts ← mapMO (fun p => recurse_fxy sos f leve p.1 p.2) (xs'.zip ys')
      some (.list (ts.map (·.1)), .list (ts.map (·.2.1)), .list (ts.map (·.2.2)))
  | _ + 1, _, _ => none

/-- The spec's reading of `recurse_fxy` as a pure function: at positive
level the two lists are first brought to equal length, the shorter
extended by repetition of its final element, then the function recurses
pairwise on corresponding elements; at level 0 the two values are
interpreted as 3d vectors and `f` is applied. -/
def recurse_fxy_spec (sos : Bool) (f : V3 → V3 → MathRes) :
    Nat → PyVal → PyVal → Option PyVal
  | 0, l1, l2 => do
      let a ← l1.asVec3
      let b ← l2.asVec3
      post sos (f a b)
  | leve + 1, .list xs, .list ys => do
      let n := max xs.length ys.length
      let xs' ← fullList xs n
      let ys' ← fullList ys n
      let ts ← mapMO (fun p => recurse_fxy_spec sos f leve p.1 p.2) (xs'.zip ys')
      some (.list ts)
  | _ + 1, _, _ => none

/-- Mapping a projection under `mapMO`, pointwise. -/
theorem mapMO_map_of_pointwise {α β γ : Type} (g : α → Option β) (F : β → γ)
    (h : α → Option γ) :
    ∀ (l : List α), (∀ p ∈ l, (g p).map F = h p) →
      (mapMO g l).map (List.map F) = mapMO h l := by
  intro l
  induction l with
  | nil => intro _; rfl
  | cons a l ih =>
      intro hp
      have ha := hp a (by simp)
      have hl := ih (fun p hm => hp p (by simp [hm]))
      simp only [mapMO]
      cases hg : g a with
      | none =>
          have hha : h a = none := by rw [← ha, hg]; rfl
          simp [hg, hha]
      | some b =>
          have hha : h a = some (F b) := by rw [← ha, hg]; rfl
          cases hm : mapMO g l with
          | none =>
              have hhl : mapMO h l = none := by rw [← hl, hm]; rfl
              simp [hg, hha, hm, hhl]
          | some bs =>
              have hhl : mapMO h l = some (bs.map F) := by
                rw [← hl, hm]; rfl
              simp [hg, hha, hm, hhl]

/-- C1.  For every pair of nested lists and every binary function `f`,
`recurse_fxy(u, v, f, leve)` with `leve > 0` first makes the two lists
equal in length by extending the shorter through repetition of its final
element, then recurses pairwise on corresponding elements; at `leve = 0`
it applies `f` to the two values interpreted as 3d vectors: the value it
returns is exactly the pad-then-zip function `recurse_fxy_spec` written
from the spec's words (the state passing only records the in-place
padding of the inputs). -/
theorem recurse_fxy_matches_spec (sos : Bool) (f : V3 → V3 → MathRes) :
    ∀ (leve : Nat) (l1 l2 : PyVal),
      (recurse_fxy sos f leve l1 l2).map (·.1) =
        recurse_fxy_spec sos f leve l1 l2 := by
  intro leve
  induction leve with
  | zero =>
      intro l1 l2
      simp only [recurse_fxy, recurse_fxy_spec]
      cases l1.asVec3 with
      | none => rfl
      | some a =>
          cases l2.asVec3 with
          | none => rfl
          | some b =>
              cases hp : post sos (f a b) <;> simp [hp]
  | succ leve ih =>
      intro l1 l2
      cases l1 with
      | list xs =>
          cases l2 with
          | list ys =>
              simp only [recurse_fxy, recurse_fxy_spec]
              cases hxs : fullList xs (max xs.length ys.length) with
              | none => rfl
              | some xs2 =>
                  cases hys : fullList ys (max xs.length ys.length) with
                  | none => rfl
                  | some ys2 =>
                      have hmm := mapMO_map_of_pointwise
                        (fun p => recurse_fxy sos f leve p.1 p.2) (·.1)
                        (fun p => recurse_fxy_spec sos f leve p.1 p.2)
                        (xs2.zip ys2) (fun p _ => ih p.1 p.2)
                      cases hm : mapMO
                          (fun p => recurse_fxy sos f leve p.1 p.2)
                          (xs2.zip ys2) with
                      | none =>
                          rw [hm] at hmm
                          simp only [Option.map_none'] at hmm
                          simp [hm, ← hmm]
                      | some ts =>
                          rw [hm] at hmm
                          simp only [Option.map_some'] at hmm
                          simp [hm, ← hmm]
          | num => rfl
          | tup => rfl
          | vecObj => rfl
      | num => rfl
      | tup => rfl
      | vecObj => rfl

/-- `mapMO` succeeds exactly on pointwise success, position by position. -/
theorem mapMO_eq_some_iff {α β : Type} {g : α → Option β} :
    ∀ {l : List α} {ts : List β},
      mapMO g l = some ts ↔ List.Forall₂ (fun a b => g a = some b) l ts := by
  intro l
  induction l with
  | nil =>
      intro ts
      constructor
      · intro h
        cases ts with
        | nil => exact List.Forall₂.nil
        | cons t ts => simp [mapMO] at h
      · intro h
        cases h
        rfl
  | cons a l ih =>
      intro ts
      constructor
      · intro h
        simp only [mapMO] at h
        cases hg : g a with
        | none => rw [hg] at h; simp at h
        | some b =>
            rw [hg] at h
            cases hm : mapMO g l with
            | none => rw [hm] at h; simp at h
            | some bs =>
                rw [hm] at h
                simp only [Option.bind_eq_bind, Option.some_bind] at h
                cases h
                exact List.Forall₂.cons hg (ih.mp hm)
      · intro h
        cases h with
        | cons hg hl =>
            rename_i b bs
            simp [mapMO, hg, ih.mpr hl]

/-- Turn a pointwise relation into an equality of mapped lists; the
pointwise hypothesis is only needed on members of the first list. -/
theorem forall₂_map_eq {α β γ : Type} {R : α → β → Prop} {F : β → γ}
    {G : α → γ} :
    ∀ {l : List α} {ts : List β}, List.Forall₂ R l ts →
      (∀ a b, a ∈ l → R a b → F b = G a) → ts.map F = l.map G := by
  intro l ts hf
  induction hf with
  | nil => intro _; rfl
  | cons hab htl ih =>
      intro h
      rename_i a b l ts
      have hh := h a b (by simp) hab
      have ht := ih (fun x y hx hxy => h x y (by simp [hx]) hxy)
      simp [hh, ht]

/-- The lists `l1` and `l2` have equal lengths at every pair of positions
jointly traversed down to level `leve` (so `recurse_fxy` never pads). -/
def eqLens : Nat → PyVal → PyVal → Prop
  | 0, _, _ => True
  | leve + 1, .list xs, .list ys =>
      xs.length = ys.length ∧ ∀ p ∈ xs.zip ys, eqLens leve p.1 p.2
  | _ + 1, _, _ => True

/-- The binary function used in concrete evaluations: ignore the second
vector and return the first. -/
def fC5 : V3 → V3 → MathRes := fun a _ => .vecR a

/-- A one-element nested list. -/
def uC5 : PyVal := .list [.list [.num 1, .num 2, .num 3]]

/-- A two-element nested list. -/
def vC5 : PyVal := .list [.list [.num 4, .num 5, .num 6],
                          .list [.num 7, .num 8, .num 9]]

/-- C5 counterexample.  `recurse_fxy` is not free of side effects on its
inputs: at `leve = 1` with a one-element first list and a two-element
second list, the padding step extends the first list in place, so after
the call the first input holds two elements and differs from the value
passed in. -/
theorem recurse_fxy_mutates_input :
    (recurse_fxy false fC5 1 uC5 vC5).map (fun t => t.2.1) ≠ some uC5 := by
  intro h
  rw [show (recurse_fxy false fC5 1 uC5 vC5).map (fun t => t.2.1) =
      some (PyVal.list [PyVal.list [.num 1, .num 2, .num 3],
                        PyVal.list [.num 1, .num 2, .num 3]]) from rfl] at h
  simp [uC5] at h

/-- C5 amended.  `recurse_fxy` modifies its inputs only through the
padding step: when the two nested lists have equal lengths at every level
jointly traversed, no padding occurs and both inputs are unchanged after
the call. -/
theorem recurse_fxy_no_mutation (sos : Bool) (f : V3 → V3 → MathRes) :
    ∀ (leve : Nat) (l1 l2 : PyVal), eqLens leve l1 l2 →
      ∀ t, recurse_fxy sos f leve l1 l2 = some t →
        t.2.1 = l1 ∧ t.2.2 = l2 := by
  intro leve
  induction leve with
  | zero =>
      intro l1 l2 _ t h
      simp only [recurse_fxy] at h
      cases hv : l1.asVec3 with
      | none => rw [hv] at h; simp at h
      | some a =>
          rw [hv] at h
          cases hw : l2.asVec3 with
          | none => rw [hw] at h; simp at h
          | some b =>
              rw [hw] at h
              simp only [Option.bind_eq_bind, Option.some_bind] at h
              cases hp : post sos (f a b) with
              | none => rw [hp] at h; simp at h
              | some r =>
                  rw [hp] at h
                  simp only [Option.some_bind] at h
                  have ht := Option.some.inj h
                  subst ht
                  exact ⟨rfl, rfl⟩
  | succ leve ih =>
      intro l1 l2 he t h
      cases l1 with
      | list xs =>
          cases l2 with
          | list ys =>
              obtain ⟨hlen, hmem⟩ := he
              have hmax : max xs.length ys.length = xs.length := by omega
              have hx : fullList xs (max xs.length ys.length) = some xs := by
                simp [fullList, hmax]
              have hy : fullList ys (max xs.length ys.length) = some ys := by
                simp [fullList, hmax, hlen]
              simp only [recurse_fxy, hx, hy, Option.bind_eq_bind,
                Option.some_bind] at h
              cases hm : mapMO (fun p => recurse_fxy sos f leve p.1 p.2)
                  (xs.zip ys) with
              | none => rw [hm] at h; simp at h
              | some ts =>
                  rw [hm] at h
                  simp only [Option.some_bind] at h
                  cases h
                  have hf := mapMO_eq_some_iff.mp hm
                  have h1 : ts.map (·.2.1) = (xs.zip ys).map Prod.fst := by
                    refine forall₂_map_eq hf ?_
                    intro p u hpmem hpu
                    exact (ih p.1 p.2 (hmem p hpmem) u hpu).1
                  have h2 : ts.map (·.2.2) = (xs.zip ys).map Prod.snd := by
                    refine forall₂_map_eq hf ?_
                    intro p u hpmem hpu
                    exact (ih p.1 p.2 (hmem p hpmem) u hpu).2
                  refine ⟨?_, ?_⟩
                  · show PyVal.list (ts.map (·.2.1)) = PyVal.list xs
                    rw [h1, List.map_fst_zip _ _ (by omega)]
                  · show PyVal.list (ts.map (·.2.2)) = PyVal.list ys
                    rw [h2, List.map_snd_zip _ _ (by omega)]
          | num => simp [recurse_fxy] at h
          | tup => simp [recurse_fxy] at h
          | vecObj => simp [recurse_fxy] at h
      | num => simp [recurse_fxy] at h
      | tup => simp [recurse_fxy] at h
      | vecObj => simp [recurse_fxy] at h

/-- Witness for the amended C5: on equal-length inputs the call returns
and both final states equal the original inputs. -/
theorem recurse_fxy_no_mutation_witness :
    ((PyVal.list [PyVal.tup [.num 1, .num 2, .num 3]], uC5, uC5) :
        PyVal × PyVal × PyVal).2.1 = uC5 ∧
    ((PyVal.list [PyVal.tup [.num 1, .num 2, .num 3]], uC5, uC5) :
        PyVal × PyVal × PyVal).2.2 = uC5 :=
  recurse_fxy_no_mutation false fC5 1 uC5 uC5
    ⟨rfl, fun _ _ => by simp [eqLens]⟩ _ rfl

/-- The claim C6 in relational form: `r` is `l` with the structure kept
above the leaves (same length at every level) and every depth-`leve` leaf
interpreted as a 3d vector and replaced by the post-processed result of
`f`. -/
def fxShape (sos : Bool) (f : V3 → MathRes) : Nat → PyVal → PyVal → Prop
  | 0, l, r => ∃ v, l.asVec3 = some v ∧ post sos (f v) = some r
  | leve + 1, l, r => ∃ cs ts, l.children = some cs ∧ r = .list ts ∧
      ts.length = cs.length ∧ ∀ p ∈ cs.zip ts, fxShape sos f leve p.1 p.2

/-- C6.  For every nested list `l` and unary function `f`,
`recurse_fx(l, f, leve)` applies `f` to every element at nesting depth
`leve` (interpreted as a 3d vector) and preserves the list structure
above the leaves: the result has the same length as `l` at every level
above the leaves, each leaf replaced by `f`'s result (a tuple for
vector-output modes, the raw value for scalar-output modes). -/
theorem recurse_fx_shape (sos : Bool) (f : V3 → MathRes) :
    ∀ (leve : Nat) (l r : PyVal),
      recurse_fx sos f leve l = some r → fxShape sos f leve l r := by
  intro leve
  induction leve with
  | zero =>
      intro l r h
      simp only [recurse_fx] at h
      cases hv : l.asVec3 with
      | none => rw [hv] at h; simp at h
      | some v =>
          rw [hv] at h
          simp only [Option.bind_eq_bind, Option.some_bind] at h
          exact ⟨v, hv, h⟩
  | succ leve ih =>
      intro l r h
      simp only [recurse_fx] at h
      cases hc : l.children with
      | none => rw [hc] at h; simp at h
      | some cs =>
          rw [hc] at h
          simp only [Option.bind_eq_bind, Option.some_bind] at h
          cases hm : mapMO (recurse_fx sos f leve) cs with
          | none => rw [hm] at h; simp at h
          | some ts =>
              rw [hm] at h
              simp only [Option.some_bind] at h
              have hr := Option.some.inj h
              have hf := mapMO_eq_some_iff.mp hm
              refine ⟨cs, ts, hc, hr.symm, hf.length_eq.symm, ?_⟩
              intro p hp
              exact ih p.1 p.2 ((List.forall₂_iff_zip.mp hf).2 hp)

/-- The unary function used in concrete evaluations: return the vector
unchanged. -/
def fC6 : V3 → MathRes := fun v => .vecR v

/-- Witness for C6: a concrete one-level list, its image under
`recurse_fx`, and the shape relation between them. -/
theorem recurse_fx_shape_witness :
    fxShape false fC6 1 (PyVal.list [PyVal.list [.num 1, .num 2, .num 3]])
      (PyVal.list [PyVal.tup [.num 1, .num 2, .num 3]]) :=
  recurse_fx_shape false fC6 1
    (PyVal.list [PyVal.list [.num 1, .num 2, .num 3]])
    (PyVal.list [PyVal.tup [.num 1, .num 2, .num 3]]) rfl

/-! ### The `VectorMathNode` socket state -/

/-- The 15 entries of `mode_items`. -/
inductive Mode : Type where
  | CROSS | DOT | ADD | SUB | LEN | DISTANCE | NORMALIZE | NEG
  | NOISE_V | NOISE_S | CELL_V | CELL_S | ANGLE | PROJECT | REFLECT
deriving DecidableEq, Repr

/-- Membership of the mode in the `scalar_out` dictionary of `update`. -/
def isScalarMode : Mode → Bool
  | .DOT | .DISTANCE | .LEN | .NOISE_S | .CELL_S | .ANGLE => true
  | _ => false

/-- The arity recorded with each lambda in `scalar_out` / `vector_out`. -/
def arity : Mode → Nat
  | .DOT => 2
  | .DISTANCE => 2
  | .LEN => 1
  | .NOISE_S => 1
  | .CELL_S => 1
  | .ANGLE => 2
  | .CROSS => 2
  | .ADD => 2
  | .SUB => 2
  | .NORMALIZE => 1
  | .NEG => 1
  | .NOISE_V => 1
  | .CELL_V => 1
  | .REFLECT => 2
  | .PROJECT => 2

/-- The identifier string of the mode (`self.items_`), used for the
label. -/
def modeName : Mode → String
  | .CROSS => "CROSS"
  | .DOT => "DOT"
  | .ADD => "ADD"
  | .SUB => "SUB"
  | .LEN => "LEN"
  | .DISTANCE => "DISTANCE"
  | .NORMALIZE => "NORMALIZE"
  | .NEG => "NEG"
  | .NOISE_V => "NOISE-V"
  | .NOISE_S => "NOISE-S"
  | .CELL_V => "CELL-V"
  | .CELL_S => "CELL-S"
  | .ANGLE => "ANGLE"
  | .PROJECT => "PROJECT"
  | .REFLECT => "REFLECT"

/-- Blender socket types used by the node. -/
inductive SockTy : Type where
  | vertices
  | strings
deriving DecidableEq, Repr

/-- One socket: its registered type and its name. -/
structure Sock : Type where
  ty : SockTy
  name : String
deriving DecidableEq, Repr

/-- The socket-facing state of a `VectorMathNode`. -/
structure NodeUI : Type where
  inputs : List Sock
  outputs : List Sock
  sos : Bool
  label : String
deriving Repr

/-- `VectorMathNode.init`: two `VerticesSocket` inputs U, V and one
`VerticesSocket` output W; the class default of `scalar_output_socket` is
`False`. -/
def initNode : NodeUI :=
  { inputs := [⟨.vertices, "U"⟩, ⟨.vertices, "V"⟩],
    outputs := [⟨.vertices, "W"⟩],
    sos := false,
    label := "" }

/-- The socket-adjusting prefix of `VectorMathNode.update` for the chosen
mode: swap the output socket between `W` (vertices) and `out` (strings)
to match the mode, set `scalar_output_socket`, and add or remove the
second input `V` so that the number of inputs equals the arity.
`self.inputs.remove(self.inputs['V'])` is reached only when there are
more inputs than the arity, which in every state reachable from `init`
means the two sockets U, V, so the erase of the socket named V is exact
there.  The rest of `update` only reads and writes socket data and
touches none of these fields. -/
def updateSockets (m : Mode) (s : NodeUI) : NodeUI :=
  let s1 :=
    if isScalarMode m then
      if s.outputs.any (fun o => o.name = "W") then
        { s with outputs := (s.outputs.eraseP (fun o => o.name = "W")) ++
            [⟨.strings, "out"⟩], sos := true }
      else { s with sos := true }
    else
      if s.outputs.any (fun o => o.name = "out") then
        { s with outputs := (s.outputs.eraseP (fun o => o.name = "out")) ++
            [⟨.vertices, "W"⟩], sos := false }
      else { s with sos := false }
  let nr := arity m
  let s2 :=
    if nr < s1.inputs.length then
      { s1 with inputs := s1.inputs.eraseP (fun i => i.name = "V") }
    else if s1.inputs.length < nr then
      { s1 with inputs := s1.inputs ++ [⟨.vertices, "V"⟩] }
    else s1
  { s2 with label := modeName m }

/-- The property C7 asserts of the node after `update` under mode `m`. -/
def sockInvariant (m : Mode) (s : NodeUI) : Prop :=
  (isScalarMode m = true → s.outputs = [⟨.strings, "out"⟩] ∧ s.sos = true) ∧
  (isScalarMode m = false → s.outputs = [⟨.vertices, "W"⟩] ∧ s.sos = false) ∧
  s.inputs.length = arity m

/-- States the socket logic can actually be in: one output socket named
`W` or `out`, and inputs `[U]` or `[U, V]`. -/
def validUI (s : NodeUI) : Prop :=
  (s.outputs = [⟨.vertices, "W"⟩] ∨ s.outputs = [⟨.strings, "out"⟩]) ∧
  (s.inputs = [⟨.vertices, "U"⟩] ∨
    s.inputs = [⟨.vertices, "U"⟩, ⟨.vertices, "V"⟩])

theorem arity_one_or_two (m : Mode) : arity m = 1 ∨ arity m = 2 := by
  cases m <;> simp [arity]

theorem updateSockets_step (m : Mode) (s : NodeUI) (hs : validUI s) :
    validUI (updateSockets m s) ∧ sockInvariant m (updateSockets m s) := by
  obtain ⟨ho, hi⟩ := hs
  rcases arity_one_or_two m with ha | ha <;>
    cases hsc : isScalarMode m <;>
    rcases ho with ho | ho <;>
    rcases hi with hi | hi <;>
    simp [updateSockets, sockInvariant, validUI, ho, hi, hsc, ha,
      List.eraseP]

/-- A property preserved by every step of a fold holds of the fold. -/
theorem foldl_preserves {α σ : Type} (P : σ → Prop) (step : σ → α → σ)
    (h : ∀ s a, P s → P (step s a)) :
    ∀ (l : List α) (s : σ), P s → P (List.foldl step s l) := by
  intro l
  induction l with
  | nil => intro s hp; exact hp
  | cons a l ih => intro s hp; exact ih _ (h s a hp)

/-- C7.  After every call to `VectorMathNode.update()` — from `init` and
any earlier sequence of mode changes — the sockets match the selected
function: a scalar-valued mode leaves a single `StringsSocket` output
named `out` with `scalar_output_socket = True`, a vector-valued mode a
single `VerticesSocket` output named `W` with
`scalar_output_socket = False`, and the number of input sockets equals
the arity of the mode. -/
theorem update_sock_invariant (prev : List Mode) (m : Mode) :
    sockInvariant m
      (updateSockets m
        (prev.foldl (fun s mm => updateSockets mm s) initNode)) := by
  have hv : validUI (prev.foldl (fun s mm => updateSockets mm s) initNode) := by
    refine foldl_preserves validUI (fun s mm => updateSockets mm s)
      (fun s a hp => (updateSockets_step a s hp).1) prev initNode ?_
    constructor
    · left; rfl
    · right; rfl
  exact (updateSockets_step m _ hv).2

/-- Modelled from the spec: `levelsOflist` (from `data_structure.py`,
which is not part of the two source files) measures the nesting depth of
the socket data ("heterogeneous nesting depth"), following the first
element of each level; an empty list has depth 0. -/
def levelsOflist : PyVal → Nat
  | .list [] => 0
  | .tup [] => 0
  | .list (x :: _) => 1 + levelsOflist x
  | .tup (x :: _) => 1 + levelsOflist x
  | .num _ => 0
  | .vecObj _ => 0

/-- The data-flow tail of `VectorMathNode.update` for the output socket
of the selected mode (the `W` branch and the `out` branch of the source
are textually identical up to the socket name and dictionary used; the
mode selects them).  `uLink`/`vLink` are `some data` when the
corresponding input socket exists, has links, and the link comes from a
`VerticesSocket` — `SvGetSocketAnyType` then yields `data`, a Python
list — and `none` otherwise, in which case the source substitutes `[]`.
`fx`/`fxy` are the mode's lambdas (host `mathutils` arithmetic, abstract
here).  The returned value is `some v` when `SvSetSocketAnyType` writes
`v` to the socket, `none` when the socket has no links and nothing is
written.  `result` starts as `[]` and a raise inside `recurse_fx` /
`recurse_fxy` is caught, leaving `result = []`. -/
def updateCompute (m : Mode) (fx : V3 → MathRes) (fxy : V3 → V3 → MathRes)
    (uLink vLink : Option (List PyVal)) (outLinked : Bool) : Option PyVal :=
  if outLinked then
    let vector1 : List PyVal := uLink.getD []
    let vector2 : List PyVal := vLink.getD []
    let sos := isScalarMode m
    let result : PyVal :=
      if arity m = 1 then
        if vector1.length ≠ 0 then
          match recurse_fx sos fx (levelsOflist (.list vector1) - 1)
              (.list vector1) with
          | some r => r
          | none => .list []
        else .list []
      else if arity m = 2 then
        if vector1.length ≠ 0 ∧ vector2.length ≠ 0 then
          match recurse_fxy sos fxy (levelsOflist (.list vector1) - 1)
              (.list vector1) (.list vector2) with
          | some t => t.1
          | none => .list []
        else .list []
      else .list []
    some result
  else none

/-- C10.  In the compute part of `VectorMathNode.update()`: when the
required input sockets are not linked to vertex sockets the fetched
lists are empty and the connected output socket is set to the empty
list, and when `recurse_fx` / `recurse_fxy` raises, the exception is
caught and the connected output socket is likewise set to the empty
list. -/
theorem update_compute_empty (m : Mode) (fx : V3 → MathRes)
    (fxy : V3 → V3 → MathRes) (d1 d2 : List PyVal)
    (vl : Option (List PyVal)) :
    (updateCompute m fx fxy none (some d2) true = some (.list []) ∧
     updateCompute m fx fxy none none true = some (.list [])) ∧
    (arity m = 2 →
      updateCompute m fx fxy (some d1) none true = some (.list [])) ∧
    (arity m = 1 →
      recurse_fx (isScalarMode m) fx (levelsOflist (.list d1) - 1)
        (.list d1) = none →
      updateCompute m fx fxy (some d1) vl true = some (.list [])) ∧
    (arity m = 2 →
      recurse_fxy (isScalarMode m) fxy (levelsOflist (.list d1) - 1)
        (.list d1) (.list d2) = none →
      updateCompute m fx fxy (some d1) (some d2) true = some (.list [])) := by
  have h12 := arity_one_or_two m
  refine ⟨⟨?_, ?_⟩, ?_, ?_, ?_⟩
  · rcases h12 with ha | ha <;> simp [updateCompute, ha]
  · rcases h12 with ha | ha <;> simp [updateCompute, ha]
  · intro ha
    simp [updateCompute, ha]
  · intro ha hr
    by_cases hd : d1.length = 0
    · simp [updateCompute, ha, hd]
    · simp [updateCompute, ha, hd, hr]
  · intro ha hr
    by_cases hd : d1.length = 0
    · simp [updateCompute, ha, hd]
    · by_cases he : d2.length = 0
      · simp [updateCompute, ha, hd, he]
      · simp [updateCompute, ha, hd, he, hr]

/-- Concrete unary lambda for the C10 witness. -/
def fxW : V3 → MathRes := fun _ => .scalR 0

/-- Concrete binary lambda for the C10 witness. -/
def fxyW : V3 → V3 → MathRes := fun _ _ => .scalR 0

/-- Witness for C10: the `LEN` mode with a malformed one-element input
(`[5]` is not a vector) makes `recurse_fx` raise, and the socket value
written is the empty list; with no linked input the same value is
written. -/
theorem update_compute_empty_witness :
    updateCompute Mode.LEN fxW fxyW (some [PyVal.num 5]) none true =
      some (.list []) ∧
    updateCompute Mode.LEN fxW fxyW none none true = some (.list []) :=
  ⟨(update_compute_empty Mode.LEN fxW fxyW [PyVal.num 5] [] none).2.2.1
      rfl rfl,
   (update_compute_empty Mode.LEN fxW fxyW [PyVal.num 5] [] none).1.2⟩

/-! ### The JSON importer (`utils/sv_json_import.py`) -/

/-- JSON values as loaded by `json.load` / `get_file_obj_from_zip`. -/
inductive JVal : Type where
  | str : String → JVal
  | int : Int → JVal
  | bool : Bool → JVal
  | list : List JVal → JVal
  | obj : List (String × JVal) → JVal
deriving Repr

namespace JVal

/-- Python `d[k]` on a JSON value: succeeds only on a dict holding the
key; a missing key (`KeyError`) or a non-dict (`TypeError`) raises. -/
def get? (j : JVal) (k : String) : Option JVal :=
  match j with
  | .obj kvs => kvs.lookup k
  | _ => none

/-- The pairs of a JSON dict (`.items()`); anything else raises. -/
def asObj : JVal → Option (List (String × JVal))
  | .obj kvs => some kvs
  | _ => none

end JVal

/-- `FailsLog._log`: a `defaultdict(int)` in insertion order.
`_log[fail_name] += 1` bumps the first entry with the name, or appends a
fresh entry at 1; it is a total function, so `add_fail` itself never
raises. -/
def bump : List (String × Nat) → String → List (String × Nat)
  | [], name => [(name, 1)]
  | p :: rest, name =>
      if p.1 = name then (p.1, p.2 + 1) :: rest else p :: bump rest name

/-- The count stored for a fail name (0 when absent). -/
def countOf : List (String × Nat) → String → Nat
  | [], _ => 0
  | p :: rest, name => if p.1 = name then p.2 else countOf rest name

/-- `FailsLog.has_fails`: `bool(self._log)`. -/
def hasFails (log : List (String × Nat)) : Bool :=
  !log.isEmpty

/-- The log obtained by replaying a sequence of caught-failure names
through `add_fail`: one `_log[name] += 1` per caught exception. -/
def aggregate (evs : List String) : List (String × Nat) :=
  evs.foldl bump []

/-- `FailsLog.report_log_result`: the lines logged after the import. -/
def report_log_result (log : List (String × Nat)) : List String :=
  if hasFails log then
    ["During import next fails has happened:"] ++
      log.map (fun p => "FAIL: " ++ p.1 ++ " - " ++ toString p.2)
  else ["Import done with no fails"]

/-- Python sequence indexing `xs[i]` with negative indices counting from
the end; out of range raises `IndexError`. -/
def pyIndex (i : Int) (n : Nat) : Option Nat :=
  if 0 ≤ i ∧ i < n then some i.toNat
  else if -(n : Int) ≤ i ∧ i < 0 then some (i + n).toNat
  else none

/-- The host's node tree as far as the importer touches it: the created
nodes (final name and `bl_idname`, in creation order), the links
(`from node name, output index, to node name, input index`) and the
freeze flag. -/
structure TreeState : Type where
  nodes : List (String × String)
  links : List (String × Nat × String × Nat)
  frozen : Bool
deriving Repr

/-- `tree.freeze(hard=True)`. -/
def freeze (t : TreeState) : TreeState := { t with frozen := true }

/-- `tree.unfreeze(hard=True)`. -/
def unfreeze (t : TreeState) : TreeState := { t with frozen := false }

/-- The host (`bpy`) behaviour the importer drives but does not control:
node creation/renaming, property and attribute assignment, and the
socket collections of each node type.  `newNode` receives the current
nodes, the `bl_idname` and the requested name, and returns the final
name the host assigned, or `none` when `tree.nodes.new` or the renaming
raises (for example an unregistered type).  The `Bool`-valued fields
tell whether the corresponding `setattr` / property assignment
succeeds. -/
structure HostEnv : Type where
  newNode : List (String × String) → String → String → Option String
  setAttr : String → String → JVal → Bool
  setProp : String → String → JVal → Bool
  setSockProp : String → Nat → String → JVal → Bool
  inSocketCount : String → Nat
  outSocketCount : String → Nat

/-- The state threaded through `import_into_tree`: the tree, the fail
log, the instrumentation trail of caught exceptions (one name per
`debug` call in `add_fail`, in order), the `new_node_names` dict, and
the local variable `socket` of the loop body (unbound at first, then
holding the last socket successfully looked up). -/
structure ImportState : Type where
  tree : TreeState
  log : List (String × Nat)
  events : List String
  nameMap : List (String × String)
  sockVar : Option (String × Nat)
deriving Repr

/-- One caught exception inside `with self._fails_log.add_fail(name)`:
the counter is bumped and the debug trail records the name. -/
def addFailStep (st : ImportState) (name : String) : ImportState :=
  { st with log := bump st.log name, events := st.events ++ [name] }

/-- Python dict assignment `m[k] = v`. -/
def dictInsert (m : List (String × String)) (k v : String) :
    List (String × String) :=
  if m.any (fun p => p.1 = k) then
    m.map (fun p => if p.1 = k then (k, v) else p)
  else m ++ [(k, v)]

/-- Run a list of possibly-raising steps in order, stopping at the first
uncaught exception (the plain `for` loops of `import_into_tree`). -/
def seqSteps {α : Type} (f : α → ImportState → Except Unit Unit × ImportState) :
    List α → ImportState → Except Unit Unit × ImportState
  | [], st => (.ok (), st)
  | a :: l, st =>
      match f a st with
      | (.ok _, st') => seqSteps f l st'
      | (.error e, st') => (.error e, st')

/-- The attributes `NodeImporter01.node_attributes` yields when present
in the node structure (after the always-attempted `location`). -/
def requiredAttributes : List String :=
  ["height", "width", "label", "hide", "color", "use_custom_color"]

/-- `NodeGenerator.set_node_attribute` under
`with add_fail("Setting node attribute")`. -/
def setNodeAttr (env : HostEnv) (nodeName attrName : String) (v : JVal)
    (st : ImportState) : ImportState :=
  if env.setAttr nodeName attrName v then st
  else addFailStep st "Setting node attribute"

/-- The `node_attributes` generator consumed by `set_node_attribute`:
the `location` read is wrapped in `add_fail("Reading node location")`
(a missing key is counted and skipped), the optional attributes are
yielded only when present. -/
def processAttrs (env : HostEnv) (nodeName : String) (nstruct : JVal)
    (st : ImportState) : ImportState :=
  let st1 :=
    match nstruct.get? "location" with
    | some v => setNodeAttr env nodeName "location" v st
    | none => addFailStep st "Reading node location"
  requiredAttributes.foldl
    (fun s attr =>
      match nstruct.get? attr with
      | some v => setNodeAttr env nodeName attr v s
      | none => s) st1

/-- The `node_properties` generator consumed by `set_node_property`:
`structure.get('params', dict()).items()` — absent `params` yields
nothing, a non-dict `params` raises inside
`add_fail("Reading node properties")`, and each assignment is wrapped in
`add_fail("Setting node property")`. -/
def processProps (env : HostEnv) (nodeName : String) (nstruct : JVal)
    (st : ImportState) : ImportState :=
  match nstruct.get? "params" with
  | none => st
  | some p =>
      match p.asObj with
      | none => addFailStep st "Reading node properties"
      | some kvs =>
          kvs.foldl
            (fun s pv =>
              if env.setProp nodeName pv.1 pv.2 then s
              else addFailStep s "Setting node property") st

/-- The consumer of one `(sock_index, prop_name, prop_value)` triple of
`input_socket_properties`: `socket = node.inputs[sock_index]` under
`add_fail("Search socket")` assigns the loop-scope variable `socket`
only on success; `BPYProperty(socket, ...)` then reads that variable —
if no socket lookup ever succeeded it is unbound and the
`UnboundLocalError` propagates out of `import_into_tree` (modelled as
`.error`), and after a failed lookup it still holds the stale previous
socket.  The assignment itself is wrapped in
`add_fail("Setting socket property")`. -/
def processSockTriple (env : HostEnv) (nodeName blId : String) (idx : Int)
    (propName : String) (v : JVal) (st : ImportState) :
    Except Unit Unit × ImportState :=
  let stA :=
    match pyIndex idx (env.inSocketCount blId) with
    | some k => { st with sockVar := some (nodeName, k) }
    | none => addFailStep st "Search socket"
  match stA.sockVar with
  | none => (.error (), stA)
  | some sock =>
      if env.setSockProp sock.1 sock.2 propName v then (.ok (), stA)
      else (.ok (), addFailStep stA "Setting socket property")

/-- One `(str_index, sock_props)` entry of `custom_socket_props`: the
inner `add_fail("Reading socket properties")` catches a non-integer
index and a non-dict property block, each counted once, and the
generator proceeds with the next entry. -/
def processSockEntry (env : HostEnv) (nodeName blId : String)
    (entry : String × JVal) (st : ImportState) :
    Except Unit Unit × ImportState :=
  match entry.1.toInt? with
  | none => (.ok (), addFailStep st "Reading socket properties")
  | some idx =>
      match entry.2.asObj with
      | none => (.ok (), addFailStep st "Reading socket properties")
      | some props =>
          seqSteps
            (fun pv s => processSockTriple env nodeName blId idx pv.1 pv.2 s)
            props st

/-- The `input_socket_properties` generator and its consumer:
`structure.get('custom_socket_props', dict()).items()` — absent yields
nothing, a non-dict raises inside
`add_fail("Reading sockets properties")`. -/
def processSockProps (env : HostEnv) (nodeName blId : String)
    (nstruct : JVal) (st : ImportState) : Except Unit Unit × ImportState :=
  match nstruct.get? "custom_socket_props" with
  | none => (.ok (), st)
  | some csp =>
      match csp.asObj with
      | none => (.ok (), addFailStep st "Reading sockets properties")
      | some entries => seqSteps (processSockEntry env nodeName blId) entries st

/-- The `bl_idname` string recorded in a node structure (used to phrase
theorems; the import itself reads the raw value). -/
def blIdOf (s : JVal) : String :=
  match s.get? "bl_idname" with
  | some (.str b) => b
  | _ => ""

/-- One iteration of the node loop of `import_into_tree`.
`node_importer.node_type` (`structure['bl_idname']`) is evaluated in the
caller, outside every `add_fail` context: a missing key or a non-dict
structure raises out of the import (`.error`).  `add_node` is wrapped in
`add_fail("Creating node")` (`tree.nodes.new` on a non-string or
unregistered type counts one fail and returns `None`, and the loop
continues); a created node is renamed by the host, recorded in
`new_node_names`, and its attributes, properties and socket properties
are replayed. -/
def processNode (env : HostEnv) (entry : String × JVal) (st : ImportState) :
    Except Unit Unit × ImportState :=
  match entry.2.get? "bl_idname" with
  | none => (.error (), st)
  | some blv =>
      match blv with
      | .str bl =>
          match env.newNode st.tree.nodes bl entry.1 with
          | none => (.ok (), addFailStep st "Creating node")
          | some finalName =>
              let st1 := { st with
                tree := { st.tree with
                  nodes := st.tree.nodes ++ [(finalName, bl)] },
                nameMap := dictInsert st.nameMap entry.1 finalName }
              let st2 := processAttrs env finalName entry.2 st1
              let st3 := processProps env finalName entry.2 st2
              processSockProps env finalName bl entry.2 st3
      | _ => (.ok (), addFailStep st "Creating node")

/-- A well-formed `update_lists` element: a 4-element JSON array, as
unpacked by `for a, b, c, d in links`. -/
def asTuple4 : JVal → Option (JVal × JVal × JVal × JVal)
  | .list [a, b, c, d] => some (a, b, c, d)
  | _ => none

/-- The `_links` generator: the whole iteration sits inside one
`add_fail("Reading links")`, so the links yielded are the longest prefix
of well-formed entries; the first malformed entry (or a non-list
`update_lists`) is counted once and ends the generator, skipping the
remaining entries. -/
def takeGoodLinks : List JVal → List (JVal × JVal × JVal × JVal) × Bool
  | [] => ([], false)
  | j :: rest =>
      match asTuple4 j with
      | some t =>
          let (ts, b) := takeGoodLinks rest
          (t :: ts, b)
      | none => ([], true)

/-- `JSONImporter01._links` applied to the structure (which the node
phase has already established to be a dict). -/
def readLinks (kvs : List (String × JVal)) :
    List (JVal × JVal × JVal × JVal) × Bool :=
  match kvs.lookup "update_lists" with
  | none => ([], false)
  | some (.list items) => takeGoodLinks items
  | some _ => ([], true)

/-- `TreeGenerator.add_link` under `add_fail("Creating link")`: resolve
both node names in the tree, index their socket collections, and create
the link; any step raising (unknown name, non-string name, non-integer
or out-of-range index) counts one fail and skips the link. -/
def linkResolve (env : HostEnv) (tr : TreeState) (fv iv tv jv : JVal) :
    Option (String × Nat × String × Nat) := do
  let f ← match fv with | .str s => some s | _ => none
  let fbl ← tr.nodes.lookup f
  let i ← match iv with | .int n => some n | _ => none
  let k ← pyIndex i (env.outSocketCount fbl)
  let t ← match tv with | .str s => some s | _ => none
  let tbl ← tr.nodes.lookup t
  let j ← match jv with | .int n => some n | _ => none
  let k2 ← pyIndex j (env.inSocketCount tbl)
  some (f, k, t, k2)

/-- The `new_node_names[x]` lookup: a non-string key is unhashable or
absent, a string key must be present; both failure ways raise. -/
def lookupNameIn (m : List (String × String)) : JVal → Option String
  | .str s => m.lookup s
  | _ => none

/-- The `add_link` call at the end of one link iteration (see
`linkResolve`): on success the link is appended, otherwise
`add_fail("Creating link")` counts one fail. -/
def addLinkStep (env : HostEnv) (fv iv tv jv : JVal) (st : ImportState) :
    ImportState :=
  match linkResolve env st.tree fv iv tv jv with
  | some l => { st with tree := { st.tree with
      links := st.tree.links ++ [l] } }
  | none => addFailStep st "Creating link"

/-- One iteration of the link loop of `import_into_tree`: the two
`new_node_names` lookups sit inside `add_fail("Search node to link")` —
on a raise the loop variables keep the names they already hold (the
first lookup rebinds `from_node_name` before the second runs) — then
`add_link` is attempted with whatever names resulted. -/
def processLink (env : HostEnv) (t : JVal × JVal × JVal × JVal)
    (st : ImportState) : ImportState :=
  match lookupNameIn st.nameMap t.1 with
  | some f =>
      match lookupNameIn st.nameMap t.2.2.1 with
      | some tn => addLinkStep env (JVal.str f) t.2.1 (JVal.str tn) t.2.2.2 st
      | none => addLinkStep env (JVal.str f) t.2.1 t.2.2.1 t.2.2.2
          (addFailStep st "Search node to link")
  | none => addLinkStep env t.1 t.2.1 t.2.2.1 t.2.2.2
      (addFailStep st "Search node to link")

/-- `TreeGenerator.start_from_tree`: freeze the tree, hand it to the
body, and unfreeze in the `finally` clause, whatever the body returned
or raised (the body's value of type `α` can carry an `Except`). -/
def start_from_tree {α : Type} (body : TreeState → α × TreeState)
    (t : TreeState) : α × TreeState :=
  let (a, t1) := body (freeze t)
  (a, unfreeze t1)

/-- The body of `import_into_tree` inside the `with` block: the node
loop (which can raise on a structure whose node entry has no
`bl_idname`, or on an unbound `socket` variable), then the link loop.
A non-dict structure raises at the first `in` test of `_nodes`. -/
def importBody (env : HostEnv) (structure' : JVal) (st : ImportState) :
    Except Unit Unit × ImportState :=
  match structure' with
  | .obj kvs =>
      let nodesRead : List (String × JVal) × Bool :=
        match kvs.lookup "nodes" with
        | none => ([], false)
        | some (.obj es) => (es, false)
        | some _ => ([], true)
      let st0 := if nodesRead.2 then addFailStep st "Reading nodes" else st
      match seqSteps (processNode env) nodesRead.1 st0 with
      | (.error e, st') => (.error e, st')
      | (.ok _, st1) =>
          let (ls, linksFail) := readLinks kvs
          let st2 := ls.foldl (fun s t => processLink env t s) st1
          let st3 := if linksFail then addFailStep st2 "Reading links" else st2
          (.ok (), st3)
  | _ => (.error (), st)

/-- `JSONImporter01.import_into_tree`: run the body under
`TreeGenerator.start_from_tree` on a fresh `FailsLog` and
`new_node_names`; the tree is unfrozen afterwards in every case, and the
first component reports whether an exception escaped. -/
def import_into_tree (env : HostEnv) (structure' : JVal)
    (tree : TreeState) : Except Unit Unit × ImportState :=
  let body : TreeState → (Except Unit Unit × ImportState) × TreeState :=
    fun tr =>
      let st0 : ImportState :=
        { tree := tr, log := [], events := [], nameMap := [],
          sockVar := none }
      let (r, st1) := importBody env structure' st0
      ((r, st1), st1.tree)
  let (rs, t2) := start_from_tree body tree
  (rs.1, { rs.2 with tree := t2 })

/-- C9.  `TreeGenerator.start_from_tree` freezes the tree before the
body sees it and unfreezes it in the `finally` clause: for every body —
including one whose result `α` records a raised exception — the
resulting tree is unfrozen, and the tree handed to the body is the
frozen one. -/
theorem start_from_tree_unfreezes {α : Type}
    (body : TreeState → α × TreeState) (t : TreeState) :
    (start_from_tree body t).2.frozen = false ∧
      (freeze t).frozen = true ∧
      start_from_tree body t =
        ((body (freeze t)).1, unfreeze (body (freeze t)).2) :=
  ⟨rfl, rfl, rfl⟩

/-- The warning `init_from_path` logs for an unexpected extension, with
Python's `path.rsplit(".")[-1]`. -/
def warnMsg (path : String) : String :=
  "File should have .zip or .json extension, got \"." ++
    (((path.splitOn ".").getLast?).getD "") ++ "\" instead"

/-- Python `str.endswith`. -/
def endsWithPy (s suffix : String) : Bool :=
  suffix.data.isSuffixOf s.data

/-- `JSONImporter01.init_from_path`: on `.zip` read the archive, on
`.json` open and parse the file (both host/file effects are the `Except`
parameters), otherwise log the warning and fall off the end, returning
`None` and no importer. -/
def init_from_path (readZip readJson : String → Except Unit JVal)
    (path : String) : Except Unit (Option JVal × List String) :=
  if endsWithPy path ".zip" then (readZip path).map (fun s => (some s, []))
  else if endsWithPy path ".json" then
    (readJson path).map (fun s => (some s, []))
  else .ok (none, [warnMsg path])

/-- C8.  For every path ending neither in `.zip` nor `.json`,
`init_from_path` logs one warning and returns `None` without raising and
without reading any file or constructing an importer. -/
theorem init_from_path_other_ext (rz rj : String → Except Unit JVal)
    (path : String) (h1 : endsWithPy path ".zip" = false)
    (h2 : endsWithPy path ".json" = false) :
    init_from_path rz rj path = .ok (none, [warnMsg path]) := by
  simp [init_from_path, h1, h2]

/-- Witness for C8 at the concrete path `scene.txt`. -/
theorem init_from_path_other_ext_witness :
    init_from_path (fun _ => .error ()) (fun _ => .error ()) "scene.txt" =
      .ok (none, [warnMsg "scene.txt"]) :=
  init_from_path_other_ext (fun _ => .error ()) (fun _ => .error ())
    "scene.txt" (by decide) (by decide)

/-! ### The fail log: aggregation of the caught exceptions -/

theorem bump_ne_nil (log : List (String × Nat)) (n : String) :
    bump log n ≠ [] := by
  cases log with
  | nil => simp [bump]
  | cons p rest =>
      simp only [bump]
      split <;> simp

theorem foldl_bump_ne_nil (evs : List String) :
    ∀ (log : List (String × Nat)), log ≠ [] →
      List.foldl bump log evs ≠ [] := by
  induction evs with
  | nil => intro log h; exact h
  | cons e evs ih =>
      intro log _
      exact ih (bump log e) (bump_ne_nil log e)

theorem aggregate_eq_nil_iff (evs : List String) :
    aggregate evs = [] ↔ evs = [] := by
  cases evs with
  | nil => simp [aggregate]
  | cons e evs =>
      simp only [aggregate, List.foldl_cons]
      constructor
      · intro h
        exact absurd h (foldl_bump_ne_nil evs (bump [] e) (bump_ne_nil [] e))
      · intro h
        cases h

theorem aggregate_append_one (evs : List String) (n : String) :
    aggregate (evs ++ [n]) = bump (aggregate evs) n := by
  simp [aggregate, List.foldl_append]

theorem countOf_bump_self (log : List (String × Nat)) (n : String) :
    countOf (bump log n) n = countOf log n + 1 := by
  induction log with
  | nil => simp [bump, countOf]
  | cons p rest ih =>
      by_cases hp : p.1 = n
      · simp [bump, countOf, hp]
      · simp [bump, countOf, hp, ih]

theorem countOf_bump_other (log : List (String × Nat)) (n m : String)
    (h : m ≠ n) : countOf (bump log n) m = countOf log m := by
  have hnm : n ≠ m := Ne.symm h
  induction log with
  | nil => simp [bump, countOf, hnm]
  | cons p rest ih =>
      by_cases hp : p.1 = n
      · have hpm : p.1 ≠ m := by rw [hp]; exact hnm
        simp [bump, countOf, hp, hpm, hnm, h]
      · by_cases hm : p.1 = m
        · simp [bump, countOf, hp, hm, hnm, h]
        · simp [bump, countOf, hp, hm, ih, hnm, h]

theorem report_no_fails_iff (log : List (String × Nat)) :
    report_log_result log = ["Import done with no fails"] ↔ log = [] := by
  cases log with
  | nil => simp [report_log_result, hasFails]
  | cons p rest =>
      simp only [report_log_result, hasFails]
      constructor
      · intro h
        simp at h
      · intro h
        cases h

/-- The instrumentation invariant: the fail log is the aggregation of
the trail of caught exceptions. -/
def logInv (st : ImportState) : Prop :=
  st.log = aggregate st.events

theorem addFailStep_logInv (st : ImportState) (n : String)
    (h : logInv st) : logInv (addFailStep st n) := by
  simp [logInv, addFailStep, aggregate_append_one, h]
  rw [h]

theorem seqSteps_pres {α : Type}
    (f : α → ImportState → Except Unit Unit × ImportState)
    (P : ImportState → Prop) (h : ∀ a st, P st → P (f a st).2) :
    ∀ (l : List α) (st : ImportState), P st → P (seqSteps f l st).2 := by
  intro l
  induction l with
  | nil => intro st hp; exact hp
  | cons a l ih =>
      intro st hp
      have hstep := h a st hp
      cases hf : f a st with
      | mk r st' =>
          rw [hf] at hstep
          cases r with
          | ok u => simpa [seqSteps, hf] using ih st' hstep
          | error e => simpa [seqSteps, hf] using hstep

theorem setNodeAttr_logInv (env : HostEnv) (n a : String) (v : JVal)
    (st : ImportState) (h : logInv st) :
    logInv (setNodeAttr env n a v st) := by
  unfold setNodeAttr
  split
  · exact h
  · exact addFailStep_logInv st _ h

theorem processAttrs_logInv (env : HostEnv) (n : String) (s : JVal)
    (st : ImportState) (h : logInv st) :
    logInv (processAttrs env n s st) := by
  unfold processAttrs
  refine foldl_preserves logInv _ ?_ _ _ ?_
  · intro s' attr hp
    cases s.get? attr with
    | none => exact hp
    | some v => exact setNodeAttr_logInv env n attr v s' hp
  · cases s.get? "location" with
    | none => exact addFailStep_logInv st _ h
    | some v => exact setNodeAttr_logInv env n "location" v st h

theorem processProps_logInv (env : HostEnv) (n : String) (s : JVal)
    (st : ImportState) (h : logInv st) :
    logInv (processProps env n s st) := by
  unfold processProps
  split
  · exact h
  · split
    · exact addFailStep_logInv st _ h
    · refine foldl_preserves logInv _ ?_ _ _ h
      intro s' pv hp
      dsimp only
      split
      · exact hp
      · exact addFailStep_logInv s' _ hp

theorem processSockTriple_logInv (env : HostEnv) (n bl : String) (idx : Int)
    (pn : String) (v : JVal) (st : ImportState) (h : logInv st) :
    logInv (processSockTriple env n bl idx pn v st).2 := by
  have hA : logInv (match pyIndex idx (env.inSocketCount bl) with
      | some k => { st with sockVar := some (n, k) }
      | none => addFailStep st "Search socket") := by
    split
    · exact h
    · exact addFailStep_logInv st _ h
  dsimp only [processSockTriple]
  split
  · exact hA
  · split
    · exact hA
    · exact addFailStep_logInv _ _ hA

theorem processSockEntry_logInv (env : HostEnv) (n bl : String)
    (entry : String × JVal) (st : ImportState) (h : logInv st) :
    logInv (processSockEntry env n bl entry st).2 := by
  unfold processSockEntry
  split
  · exact addFailStep_logInv st _ h
  · split
    · exact addFailStep_logInv st _ h
    · exact seqSteps_pres _ logInv
        (fun pv s' hp =>
          processSockTriple_logInv env n bl _ pv.1 pv.2 s' hp) _ st h

theorem processSockProps_logInv (env : HostEnv) (n bl : String) (s : JVal)
    (st : ImportState) (h : logInv st) :
    logInv (processSockProps env n bl s st).2 := by
  unfold processSockProps
  split
  · exact h
  · split
    · exact addFailStep_logInv st _ h
    · exact seqSteps_pres _ logInv
        (fun e s' hp => processSockEntry_logInv env n bl e s' hp) _ st h

theorem processNode_logInv (env : HostEnv) (entry : String × JVal)
    (st : ImportState) (h : logInv st) :
    logInv (processNode env entry st).2 := by
  unfold processNode
  split
  · exact h
  · split
    · split
      · exact addFailStep_logInv st _ h
      · refine processSockProps_logInv env _ _ entry.2 _ ?_
        refine processProps_logInv env _ entry.2 _ ?_
        exact processAttrs_logInv env _ entry.2 _ h
    · exact addFailStep_logInv st _ h

theorem addLinkStep_logInv (env : HostEnv) (fv iv tv jv : JVal)
    (st : ImportState) (h : logInv st) :
    logInv (addLinkStep env fv iv tv jv st) := by
  unfold addLinkStep
  split
  · exact h
  · exact addFailStep_logInv st _ h

theorem processLink_logInv (env : HostEnv) (t : JVal × JVal × JVal × JVal)
    (st : ImportState) (h : logInv st) :
    logInv (processLink env t st) := by
  unfold processLink
  split
  · split
    · exact addLinkStep_logInv env _ _ _ _ st h
    · exact addLinkStep_logInv env _ _ _ _ _ (addFailStep_logInv st _ h)
  · exact addLinkStep_logInv env _ _ _ _ _ (addFailStep_logInv st _ h)

theorem importBody_logInv (env : HostEnv) (structure' : JVal)
    (st : ImportState) (h : logInv st) :
    logInv (importBody env structure' st).2 := by
  unfold importBody
  split
  · rename_i kvs
    have h0 : logInv (if (match kvs.lookup "nodes" with
        | none => (([] : List (String × JVal)), false)
        | some (.obj es) => (es, false)
        | some _ => ([], true)).2 then addFailStep st "Reading nodes"
        else st) := by
      split
      · exact addFailStep_logInv st _ h
      · exact h
    have h1 := seqSteps_pres (processNode env) logInv
      (fun a s' hp => processNode_logInv env a s' hp)
      (match kvs.lookup "nodes" with
        | none => (([] : List (String × JVal)), false)
        | some (.obj es) => (es, false)
        | some _ => ([], true)).1 _ h0
    dsimp only
    split
    · rename_i e st' hs
      rw [hs] at h1
      exact h1
    · rename_i u st1 hs
      rw [hs] at h1
      have h2 := foldl_preserves logInv
        (fun s' t => processLink env t s')
        (fun s' a hp => processLink_logInv env a s' hp)
        (readLinks kvs).1 st1 h1
      split
      · exact addFailStep_logInv _ _ h2
      · exact h2
  · exact h

theorem import_into_tree_logInv (env : HostEnv) (structure' : JVal)
    (tree : TreeState) :
    logInv (import_into_tree env structure' tree).2 := by
  unfold import_into_tree start_from_tree
  dsimp only
  have h0 : logInv
      ({ tree := freeze tree, log := [], events := [], nameMap := [],
         sockVar := none } : ImportState) := by
    simp [logInv, aggregate]
  have h1 := importBody_logInv env structure'
    { tree := freeze tree, log := [], events := [], nameMap := [],
      sockVar := none } h0
  exact h1

/-- C3.  `FailsLog.add_fail` on a caught exception bumps the counter of
its fail name by exactly one, leaving every other name's count alone
(and, being a total function on the log, never raises); after
`import_into_tree` the log is exactly the aggregation of the caught
exceptions in order, and `report_log_result` reports that the import
finished with no fails precisely when no exception was caught during
the whole import. -/
theorem failsLog_spec (env : HostEnv) (structure' : JVal)
    (tree : TreeState) (log : List (String × Nat)) (name other : String)
    (hne : other ≠ name) :
    countOf (bump log name) name = countOf log name + 1 ∧
    countOf (bump log name) other = countOf log other ∧
    (import_into_tree env structure' tree).2.log =
      aggregate (import_into_tree env structure' tree).2.events ∧
    (report_log_result (import_into_tree env structure' tree).2.log =
        ["Import done with no fails"] ↔
      (import_into_tree env structure' tree).2.events = []) := by
  have hinv := import_into_tree_logInv env structure' tree
  refine ⟨countOf_bump_self log name, countOf_bump_other log name other hne,
    hinv, ?_⟩
  rw [report_no_fails_iff, hinv, aggregate_eq_nil_iff]

/-- A fully cooperative host: node creation keeps the requested name,
every assignment succeeds, every node type has five sockets each way. -/
def envOk : HostEnv :=
  { newNode := fun _ _ req => some req,
    setAttr := fun _ _ _ => true,
    setProp := fun _ _ _ => true,
    setSockProp := fun _ _ _ _ => true,
    inSocketCount := fun _ => 5,
    outSocketCount := fun _ => 5 }

/-- An empty, unfrozen tree. -/
def emptyTree : TreeState := { nodes := [], links := [], frozen := false }

/-- A serialized tree with one well-formed node and no links. -/
def structOkOne : JVal :=
  .obj [("nodes", .obj [("Node A",
    .obj [("bl_idname", .str "SvSomeNode"),
          ("location", .list [.int 0, .int 0])])])]

/-- Witness for C3 on a concrete log and a concrete import. -/
theorem failsLog_spec_witness :
    countOf (bump [] "Creating node") "Creating node" =
      countOf [] "Creating node" + 1 ∧
    countOf (bump [] "Creating node") "Reading links" =
      countOf [] "Reading links" ∧
    (import_into_tree envOk structOkOne emptyTree).2.log =
      aggregate (import_into_tree envOk structOkOne emptyTree).2.events ∧
    (report_log_result (import_into_tree envOk structOkOne emptyTree).2.log =
        ["Import done with no fails"] ↔
      (import_into_tree envOk structOkOne emptyTree).2.events = []) :=
  failsLog_spec envOk structOkOne emptyTree [] "Creating node"
    "Reading links" (by decide)

/-- The node entries the importer iterates over. -/
def nodeEntriesOf (structure' : JVal) : List (String × JVal) :=
  match structure' with
  | .obj kvs =>
      match kvs.lookup "nodes" with
      | some (.obj es) => es
      | _ => []
  | _ => []

/-- A serialized tree whose single node entry has no `bl_idname`. -/
def structNoBlId : JVal :=
  .obj [("nodes", .obj [("Bad Node",
    .obj [("location", .list [.int 0, .int 0])])])]

/-- C2 counterexample.  A single node entry lacking `bl_idname` makes
`import_into_tree` raise (the `node_type` read happens outside every
`add_fail` context), aborting the import instead of counting a fail and
continuing. -/
theorem import_raises_on_missing_bl_idname :
    (import_into_tree envOk structNoBlId emptyTree).1 = .error () := rfl

theorem seqSteps_ok {α : Type}
    (f : α → ImportState → Except Unit Unit × ImportState) :
    ∀ (l : List α), (∀ a ∈ l, ∀ st, (f a st).1 = .ok ()) →
      ∀ st, (seqSteps f l st).1 = .ok () := by
  intro l
  induction l with
  | nil => intro _ st; rfl
  | cons a l ih =>
      intro h st
      have ha := h a (by simp) st
      cases hf : f a st with
      | mk r st' =>
          rw [hf] at ha
          dsimp at ha
          subst ha
          simpa [seqSteps, hf] using
            ih (fun x hx s => h x (by simp [hx]) s) st'

theorem processSockTriple_ok (env : HostEnv) (n bl : String) (idx : Int)
    (pn : String) (v : JVal) (st : ImportState)
    (h : (pyIndex idx (env.inSocketCount bl)).isSome) :
    (processSockTriple env n bl idx pn v st).1 = .ok () := by
  obtain ⟨k, hk⟩ := Option.isSome_iff_exists.mp h
  unfold processSockTriple
  simp only [hk]
  split <;> rfl

theorem processSockEntry_ok (env : HostEnv) (n bl : String)
    (entry : String × JVal) (st : ImportState)
    (h : ∀ idx, entry.1.toInt? = some idx →
      (pyIndex idx (env.inSocketCount bl)).isSome) :
    (processSockEntry env n bl entry st).1 = .ok () := by
  unfold processSockEntry
  split
  · rfl
  · split
    · rfl
    · rename_i _ idx hti _ props hobj
      apply seqSteps_ok
      intro pv _ st'
      exact processSockTriple_ok env n bl idx pv.1 pv.2 st' (h idx hti)

theorem processSockProps_ok (env : HostEnv) (n bl : String) (s : JVal)
    (st : ImportState)
    (h : ∀ csp, s.get? "custom_socket_props" = some csp →
      ∀ entries2, csp.asObj = some entries2 →
      ∀ se ∈ entries2, ∀ idx, se.1.toInt? = some idx →
        (pyIndex idx (env.inSocketCount bl)).isSome) :
    (processSockProps env n bl s st).1 = .ok () := by
  unfold processSockProps
  split
  · rfl
  · split
    · rfl
    · rename_i _ csp hcsp _ entries2 hobj
      apply seqSteps_ok
      intro se hse st'
      apply processSockEntry_ok
      intro idx hidx
      exact h csp hcsp entries2 hobj se hse idx hidx

theorem processNode_ok (env : HostEnv) (entry : String × JVal)
    (st : ImportState)
    (hbl : ∃ bl, entry.2.get? "bl_idname" = some bl)
    (hsock : ∀ bl, entry.2.get? "bl_idname" = some (.str bl) →
      ∀ csp, entry.2.get? "custom_socket_props" = some csp →
      ∀ entries2, csp.asObj = some entries2 →
      ∀ se ∈ entries2, ∀ idx, se.1.toInt? = some idx →
        (pyIndex idx (env.inSocketCount bl)).isSome) :
    (processNode env entry st).1 = .ok () := by
  unfold processNode
  split
  · rename_i hnone
    obtain ⟨bl, hb⟩ := hbl
    rw [hnone] at hb
    cases hb
  · split
    · rename_i blStr hbleq
      split
      · rfl
      · rename_i finalName hnew
        apply processSockProps_ok
        intro csp hcsp entries2 hobj se hse idx hidx
        exact hsock blStr hbleq csp hcsp entries2 hobj se hse idx hidx
    · rfl

theorem importBody_ok (env : HostEnv) (kvs : List (String × JVal))
    (st : ImportState)
    (hbl : ∀ e ∈ nodeEntriesOf (.obj kvs), ∃ bl,
      e.2.get? "bl_idname" = some bl)
    (hsock : ∀ e ∈ nodeEntriesOf (.obj kvs), ∀ bl,
      e.2.get? "bl_idname" = some (.str bl) →
      ∀ csp, e.2.get? "custom_socket_props" = some csp →
      ∀ entries2, csp.asObj = some entries2 →
      ∀ se ∈ entries2, ∀ idx, se.1.toInt? = some idx →
        (pyIndex idx (env.inSocketCount bl)).isSome) :
    (importBody env (.obj kvs) st).1 = .ok () := by
  unfold importBody
  dsimp only
  cases hlook : kvs.lookup "nodes" with
  | none =>
      have hent : nodeEntriesOf (.obj kvs) = [] := by
        simp [nodeEntriesOf, hlook]
      simp only [hlook]
      rfl
  | some nv =>
      cases nv with
      | obj es =>
          have hent : nodeEntriesOf (.obj kvs) = es := by
            simp [nodeEntriesOf, hlook]
          rw [hent] at hbl hsock
          simp only [hlook]
          have hseq : ∀ st', (seqSteps (processNode env) es st').1 = .ok () := by
            intro st'
            refine seqSteps_ok (processNode env) es ?_ st'
            intro e he st2
            exact processNode_ok env e st2 (hbl e he)
              (fun bl hb csp hcsp e2 ho se hse idx hidx =>
                hsock e he bl hb csp hcsp e2 ho se hse idx hidx)
          have hred : (if false = true then addFailStep st "Reading nodes"
              else st) = st := by simp
          rw [hred]
          cases hs : seqSteps (processNode env) es st with
          | mk r st1 =>
              have := hseq st
              rw [hs] at this
              dsimp at this
              subst this
              rfl
      | str sv => simp only [hlook]; rfl
      | int iv => simp only [hlook]; rfl
      | bool bv => simp only [hlook]; rfl
      | list lv => simp only [hlook]; rfl

/-- C2 amended.  During `import_into_tree`, exceptions raised while
processing a node, node attribute, node property, socket property or
link are caught and counted and the import continues — except that two
reads happen outside every handler: the `bl_idname` of a node entry
(a node structure without it aborts the import, see the
counterexample), and the loop variable `socket` after a failed socket
lookup.  Provided every node entry carries a `bl_idname` and every
socket-index lookup succeeds, no exception escapes `import_into_tree`,
whatever the host does and whatever else is malformed. -/
theorem import_no_raise (env : HostEnv) (kvs : List (String × JVal))
    (tree : TreeState)
    (hbl : ∀ e ∈ nodeEntriesOf (.obj kvs), ∃ bl,
      e.2.get? "bl_idname" = some bl)
    (hsock : ∀ e ∈ nodeEntriesOf (.obj kvs), ∀ bl,
      e.2.get? "bl_idname" = some (.str bl) →
      ∀ csp, e.2.get? "custom_socket_props" = some csp →
      ∀ entries2, csp.asObj = some entries2 →
      ∀ se ∈ entries2, ∀ idx, se.1.toInt? = some idx →
        (pyIndex idx (env.inSocketCount bl)).isSome) :
    (import_into_tree env (.obj kvs) tree).1 = .ok () := by
  have h := importBody_ok env kvs
    { tree := freeze tree, log := [], events := [], nameMap := [],
      sockVar := none } hbl hsock
  unfold import_into_tree start_from_tree
  dsimp only
  cases hb : importBody env (.obj kvs)
      { tree := freeze tree, log := [], events := [], nameMap := [],
        sockVar := none } with
  | mk r st1 =>
      rw [hb] at h
      dsimp at h
      subst h
      simp [hb]

/-- A serialized tree with one node (no location, so one fail is
counted) and one malformed link entry (one more fail): used to witness
that the import still finishes without raising. -/
def structC2w : JVal :=
  .obj [("nodes", .obj [("A", .obj [("bl_idname", .str "SvNode")])]),
        ("update_lists", .list [.str "bad"])]

/-- Witness for the amended C2: the malformed pieces of `structC2w` are
counted, not raised. -/
theorem import_no_raise_witness :
    (import_into_tree envOk
      (.obj [("nodes", .obj [("A", .obj [("bl_idname", .str "SvNode")])]),
             ("update_lists", .list [.str "bad"])]) emptyTree).1 = .ok () := by
  refine import_no_raise envOk _ emptyTree ?_ ?_
  · intro e he
    simp [nodeEntriesOf] at he
    subst he
    exact ⟨.str "SvNode", rfl⟩
  · intro e he bl hb csp hcsp
    simp [nodeEntriesOf] at he
    subst he
    have hfalse := hcsp
    rw [show (("A", JVal.obj [("bl_idname", JVal.str "SvNode")]) :
        String × JVal).2.get? "custom_socket_props" = none from rfl] at hfalse
    cases hfalse

/-- The parts of the state the attribute/property phases leave alone. -/
def frameEq (st st' : ImportState) : Prop :=
  st'.tree = st.tree ∧ st'.nameMap = st.nameMap ∧ st'.sockVar = st.sockVar

theorem frameEq_refl (st : ImportState) : frameEq st st := ⟨rfl, rfl, rfl⟩

theorem frameEq_trans {a b c : ImportState} (h1 : frameEq a b)
    (h2 : frameEq b c) : frameEq a c :=
  ⟨h2.1.trans h1.1, h2.2.1.trans h1.2.1, h2.2.2.trans h1.2.2⟩

theorem addFailStep_frame (st : ImportState) (n : String) :
    frameEq st (addFailStep st n) := ⟨rfl, rfl, rfl⟩

theorem setNodeAttr_frame (env : HostEnv) (n a : String) (v : JVal)
    (st : ImportState) : frameEq st (setNodeAttr env n a v st) := by
  unfold setNodeAttr
  split
  · exact frameEq_refl st
  · exact addFailStep_frame st _

theorem processAttrs_frame (env : HostEnv) (n : String) (s : JVal)
    (st : ImportState) : frameEq st (processAttrs env n s st) := by
  unfold processAttrs
  refine foldl_preserves (frameEq st) _ ?_ _ _ ?_
  · intro s' attr hp
    cases s.get? attr with
    | none => exact hp
    | some v => exact frameEq_trans hp (setNodeAttr_frame env n attr v s')
  · cases s.get? "location" with
    | none => exact addFailStep_frame st _
    | some v => exact setNodeAttr_frame env n "location" v st

theorem processProps_frame (env : HostEnv) (n : String) (s : JVal)
    (st : ImportState) : frameEq st (processProps env n s st) := by
  unfold processProps
  split
  · exact frameEq_refl st
  · split
    · exact addFailStep_frame st _
    · refine foldl_preserves (frameEq st) _ ?_ _ _ (frameEq_refl st)
      intro s' pv hp
      dsimp only
      split
      · exact hp
      · exact frameEq_trans hp (addFailStep_frame s' _)

theorem processSockProps_none (env : HostEnv) (n bl : String) (s : JVal)
    (st : ImportState) (h : s.get? "custom_socket_props" = none) :
    processSockProps env n bl s st = (.ok (), st) := by
  unfold processSockProps
  rw [h]

/-- The parts of the state even the socket-property phase leaves alone:
it can bump the fail log and rebind the `socket` variable, but never
touches the tree or the name map. -/
def treeMapEq (st st' : ImportState) : Prop :=
  st'.tree = st.tree ∧ st'.nameMap = st.nameMap

theorem treeMapEq_trans {a b c : ImportState} (h1 : treeMapEq a b)
    (h2 : treeMapEq b c) : treeMapEq a c :=
  ⟨h2.1.trans h1.1, h2.2.trans h1.2⟩

theorem processSockTriple_treeMap (env : HostEnv) (n bl : String)
    (idx : Int) (pn : String) (v : JVal) (st : ImportState) :
    treeMapEq st (processSockTriple env n bl idx pn v st).2 := by
  have hA : treeMapEq st (match pyIndex idx (env.inSocketCount bl) with
      | some k => { st with sockVar := some (n, k) }
      | none => addFailStep st "Search socket") := by
    split
    · exact ⟨rfl, rfl⟩
    · exact ⟨rfl, rfl⟩
  dsimp only [processSockTriple]
  split
  · exact hA
  · split
    · exact hA
    · exact treeMapEq_trans hA ⟨rfl, rfl⟩

theorem processSockEntry_treeMap (env : HostEnv) (n bl : String)
    (entry : String × JVal) (st : ImportState) :
    treeMapEq st (processSockEntry env n bl entry st).2 := by
  unfold processSockEntry
  split
  · exact ⟨rfl, rfl⟩
  · split
    · exact ⟨rfl, rfl⟩
    · exact seqSteps_pres _ (treeMapEq st)
        (fun pv s' hp => treeMapEq_trans hp
          (processSockTriple_treeMap env n bl _ pv.1 pv.2 s')) _ st
        ⟨rfl, rfl⟩

theorem processSockProps_treeMap (env : HostEnv) (n bl : String)
    (s : JVal) (st : ImportState) :
    treeMapEq st (processSockProps env n bl s st).2 := by
  unfold processSockProps
  split
  · exact ⟨rfl, rfl⟩
  · split
    · exact ⟨rfl, rfl⟩
    · exact seqSteps_pres _ (treeMapEq st)
        (fun e s' hp => treeMapEq_trans hp
          (processSockEntry_treeMap env n bl e s')) _ st ⟨rfl, rfl⟩

/-- The effect of one node-loop iteration on a node entry carrying a
`bl_idname`, whose socket-index lookups (if any) all succeed, under a
host that always assigns `rename` of the requested name: the node is
created and recorded, all its attribute/property/socket-property
failures are merely counted, and neither the tree nor the name map is
touched otherwise. -/
theorem processNode_result (env : HostEnv) (rename : String → String)
    (hnew : ∀ ns bl r, env.newNode ns bl r = some (rename r))
    (e : String × JVal) (st : ImportState) (bl : String)
    (hb : e.2.get? "bl_idname" = some (.str bl))
    (hsck : ∀ csp, e.2.get? "custom_socket_props" = some csp →
      ∀ entries2, csp.asObj = some entries2 →
      ∀ se ∈ entries2, ∀ idx, se.1.toInt? = some idx →
        (pyIndex idx (env.inSocketCount bl)).isSome) :
    (processNode env e st).1 = .ok () ∧
    (processNode env e st).2.tree.nodes =
      st.tree.nodes ++ [(rename e.1, bl)] ∧
    (processNode env e st).2.nameMap =
      dictInsert st.nameMap e.1 (rename e.1) ∧
    (processNode env e st).2.tree.links = st.tree.links ∧
    (processNode env e st).2.tree.frozen = st.tree.frozen := by
  have hred : processNode env e st =
      (let st1 : ImportState := { st with
          tree := { st.tree with
            nodes := st.tree.nodes ++ [(rename e.1, bl)] },
          nameMap := dictInsert st.nameMap e.1 (rename e.1) }
        let st2 := processAttrs env (rename e.1) e.2 st1
        let st3 := processProps env (rename e.1) e.2 st2
        processSockProps env (rename e.1) bl e.2 st3) := by
    unfold processNode
    rw [hb]
    simp only [hnew]
  rw [hred]
  set st1 : ImportState := { st with
      tree := { st.tree with
        nodes := st.tree.nodes ++ [(rename e.1, bl)] },
      nameMap := dictInsert st.nameMap e.1 (rename e.1) } with hst1
  have hA := processAttrs_frame env (rename e.1) e.2 st1
  have hP := processProps_frame env (rename e.1) e.2
    (processAttrs env (rename e.1) e.2 st1)
  have hfr : frameEq st1
      (processProps env (rename e.1) e.2
        (processAttrs env (rename e.1) e.2 st1)) :=
    frameEq_trans hA hP
  have hok := processSockProps_ok env (rename e.1) bl e.2
    (processProps env (rename e.1) e.2
      (processAttrs env (rename e.1) e.2 st1)) hsck
  have htm := processSockProps_treeMap env (rename e.1) bl e.2
    (processProps env (rename e.1) e.2
      (processAttrs env (rename e.1) e.2 st1))
  have hall : treeMapEq st1
      (processSockProps env (rename e.1) bl e.2
        (processProps env (rename e.1) e.2
          (processAttrs env (rename e.1) e.2 st1))).2 :=
    treeMapEq_trans ⟨hfr.1, hfr.2.1⟩ htm
  refine ⟨hok, ?_, ?_, ?_, ?_⟩
  · rw [hall.1]
  · rw [hall.2]
  · rw [hall.1]
  · rw [hall.1]

/-- The whole node loop on well-formed entries: every node is created
under its renamed name with its recorded `bl_idname`, in order. -/
theorem nodeLoop_result (env : HostEnv) (rename : String → String)
    (hnew : ∀ ns bl r, env.newNode ns bl r = some (rename r)) :
    ∀ (entries : List (String × JVal)) (st : ImportState),
      (∀ e ∈ entries, e.2.get? "bl_idname" = some (.str (blIdOf e.2)) ∧
        (∀ csp, e.2.get? "custom_socket_props" = some csp →
          ∀ entries2, csp.asObj = some entries2 →
          ∀ se ∈ entries2, ∀ idx, se.1.toInt? = some idx →
            (pyIndex idx (env.inSocketCount (blIdOf e.2))).isSome)) →
      (seqSteps (processNode env) entries st).1 = .ok () ∧
      (seqSteps (processNode env) entries st).2.tree.nodes =
        st.tree.nodes ++ entries.map (fun e => (rename e.1, blIdOf e.2)) ∧
      (seqSteps (processNode env) entries st).2.nameMap =
        entries.foldl (fun m e => dictInsert m e.1 (rename e.1)) st.nameMap ∧
      (seqSteps (processNode env) entries st).2.tree.links =
        st.tree.links ∧
      (seqSteps (processNode env) entries st).2.tree.frozen =
        st.tree.frozen := by
  intro entries
  induction entries with
  | nil =>
      intro st _
      exact ⟨rfl, by simp [seqSteps], rfl, rfl, rfl⟩
  | cons e es ih =>
      intro st h
      obtain ⟨hb, hsck⟩ := h e (by simp)
      have hpn := processNode_result env rename hnew e st (blIdOf e.2) hb hsck
      cases hpe : processNode env e st with
      | mk r st' =>
          rw [hpe] at hpn
          dsimp at hpn
          obtain ⟨hr, h1, h2, h3, h4⟩ := hpn
          subst hr
          have hs : seqSteps (processNode env) (e :: es) st =
              seqSteps (processNode env) es st' := by
            simp [seqSteps, hpe]
          rw [hs]
          have hih := ih st' (fun x hx => h x (by simp [hx]))
          obtain ⟨i0, i1, i2, i3, i4⟩ := hih
          refine ⟨i0, ?_, ?_, ?_, ?_⟩
          · rw [i1, h1]
            simp
          · rw [i2, h2]
            rfl
          · rw [i3, h3]
          · rw [i4, h4]

/-- Folding Python dict inserts of fresh, pairwise distinct keys appends
the bindings in order. -/
theorem foldl_dictInsert_append (rename : String → String) :
    ∀ (entries : List (String × JVal)) (m : List (String × String)),
      (∀ e ∈ entries, m.any (fun p => p.1 = e.1) = false) →
      (entries.map Prod.fst).Nodup →
      entries.foldl (fun m' e => dictInsert m' e.1 (rename e.1)) m =
        m ++ entries.map (fun e => (e.1, rename e.1)) := by
  intro entries
  induction entries with
  | nil => intro m _ _; simp
  | cons e es ih =>
      intro m hfresh hnd
      have he := hfresh e (by simp)
      have hins : dictInsert m e.1 (rename e.1) = m ++ [(e.1, rename e.1)] := by
        unfold dictInsert
        rw [he]
        simp
      simp only [List.foldl_cons, hins]
      rw [ih (m ++ [(e.1, rename e.1)]) ?_ ?_]
      · simp
      · intro x hx
        have hx1 := hfresh x (by simp [hx])
        have hnd2 : (e.1 :: List.map Prod.fst es).Nodup := by
          rw [List.map_cons] at hnd
          exact hnd
        have hnd' := List.nodup_cons.mp hnd2
        have hx2 : ¬e.1 = x.1 := by
          intro hcontra
          exact hnd'.1 (hcontra ▸ (List.mem_map_of_mem Prod.fst hx))
        simp [List.any_append, hx1, hx2]
      · have hnd2 : (e.1 :: List.map Prod.fst es).Nodup := by
          rw [List.map_cons] at hnd
          exact hnd
        exact (List.nodup_cons.mp hnd2).2

/-- In an association list with pairwise distinct keys, lookup finds any
member. -/
theorem lookup_eq_of_mem_nodup {β : Type} :
    ∀ (l : List (String × β)) (k : String) (v : β),
      (l.map Prod.fst).Nodup → (k, v) ∈ l → l.lookup k = some v := by
  intro l
  induction l with
  | nil => intro k v _ hm; cases hm
  | cons p rest ih =>
      intro k v hnd hm
      have hnd2 : (p.1 :: List.map Prod.fst rest).Nodup := by
        rw [List.map_cons] at hnd
        exact hnd
      have hnd' := List.nodup_cons.mp hnd2
      cases hm with
      | head => simp [List.lookup]
      | tail _ hm' =>
          have hk : ¬k == p.1 := by
            intro hkb
            have : k = p.1 := by simpa using hkb
            exact hnd'.1 (this ▸ (List.mem_map_of_mem Prod.fst hm'))
          have hk' : (k == p.1) = false := by
            simpa using hk
          simp [List.lookup, hk']
          exact ih k v hnd'.2 hm'

theorem pyIndex_nonneg (i : Int) (n : Nat) (h0 : 0 ≤ i) (h1 : i < n) :
    pyIndex i n = some i.toNat := by
  simp [pyIndex, h0, h1]

/-- With every element a 4-element array, the `_links` generator yields
them all, without a fail. -/
theorem takeGoodLinks_all :
    ∀ (items : List JVal),
      (∀ it ∈ items, ∃ t, asTuple4 it = some t) →
      takeGoodLinks items =
        (items.map (fun it => (asTuple4 it).getD
          (JVal.str "", JVal.str "", JVal.str "", JVal.str "")), false) := by
  intro items
  induction items with
  | nil => intro _; rfl
  | cons it rest ih =>
      intro h
      obtain ⟨t, ht⟩ := h it (by simp)
      have hr := ih (fun x hx => h x (by simp [hx]))
      simp [takeGoodLinks, ht, hr]

/-- The link an `update_lists` 4-tuple should produce, under the host's
renaming of the serialized node names. -/
def tupleSpec (rename : String → String)
    (t : JVal × JVal × JVal × JVal) : String × Nat × String × Nat :=
  match t with
  | (.str a, .int i, .str b, .int j) => (rename a, i.toNat, rename b, j.toNat)
  | _ => ("", 0, "", 0)

/-- The whole link loop on resolvable tuples: every link is created
between the renamed nodes at the recorded socket indices, in order, and
nothing else changes. -/
theorem linkLoop_result (env : HostEnv) (rename : String → String) :
    ∀ (ls : List (JVal × JVal × JVal × JVal)) (st : ImportState),
      (∀ t ∈ ls, ∃ a i b j bla blb,
        t = (JVal.str a, JVal.int i, JVal.str b, JVal.int j) ∧
        st.nameMap.lookup a = some (rename a) ∧
        st.nameMap.lookup b = some (rename b) ∧
        st.tree.nodes.lookup (rename a) = some bla ∧
        st.tree.nodes.lookup (rename b) = some blb ∧
        0 ≤ i ∧ i < (env.outSocketCount bla : Int) ∧
        0 ≤ j ∧ j < (env.inSocketCount blb : Int)) →
      (ls.foldl (fun s t => processLink env t s) st).tree.links =
        st.tree.links ++ ls.map (tupleSpec rename) ∧
      (ls.foldl (fun s t => processLink env t s) st).tree.nodes =
        st.tree.nodes ∧
      (ls.foldl (fun s t => processLink env t s) st).nameMap = st.nameMap ∧
      (ls.foldl (fun s t => processLink env t s) st).tree.frozen =
        st.tree.frozen ∧
      (ls.foldl (fun s t => processLink env t s) st).sockVar = st.sockVar := by
  intro ls
  induction ls with
  | nil => intro st _; exact ⟨by simp, rfl, rfl, rfl, rfl⟩
  | cons t ts ih =>
      intro st h
      obtain ⟨a, i, b, j, bla, blb, ht, hla, hlb, hna, hnb, h0, h1, h2, h3⟩ :=
        h t (by simp)
      have hpa : pyIndex i (env.outSocketCount bla) = some i.toNat :=
        pyIndex_nonneg i _ h0 h1
      have hpb : pyIndex j (env.inSocketCount blb) = some j.toNat :=
        pyIndex_nonneg j _ h2 h3
      have hpl : processLink env t st = { st with tree := { st.tree with
          links := st.tree.links ++
            [(rename a, i.toNat, rename b, j.toNat)] } } := by
        subst ht
        simp only [processLink, lookupNameIn, hla, hlb, addLinkStep,
          linkResolve, hna, hnb, hpa, hpb, Option.bind_eq_bind,
          Option.some_bind]
      have hts : tupleSpec rename t =
          (rename a, i.toNat, rename b, j.toNat) := by
        subst ht
        rfl
      simp only [List.foldl_cons, hpl]
      have hih := ih { st with tree := { st.tree with
          links := st.tree.links ++
            [(rename a, i.toNat, rename b, j.toNat)] } }
        (fun x hx => by
          obtain ⟨a', i', b', j', bla', blb', hx1, hx2, hx3, hx4, hx5,
            hx6, hx7, hx8, hx9⟩ := h x (by simp [hx])
          exact ⟨a', i', b', j', bla', blb', hx1, hx2, hx3, hx4, hx5,
            hx6, hx7, hx8, hx9⟩)
      obtain ⟨i1, i2, i3, i4, i5⟩ := hih
      refine ⟨?_, ?_, ?_, ?_, ?_⟩
      · rw [i1]
        simp [hts]
      · rw [i2]
      · rw [i3]
      · rw [i4]
      · rw [i5]

/-- The 4-tuple a well-formed `update_lists` element unpacks to. -/
def tupleOfJ (it : JVal) : JVal × JVal × JVal × JVal :=
  (asTuple4 it).getD (.str "", .str "", .str "", .str "")

theorem importBody_result (env : HostEnv) (rename : String → String)
    (hnew : ∀ ns bl r, env.newNode ns bl r = some (rename r))
    (kvs entries : List (String × JVal)) (items : List JVal)
    (st : ImportState)
    (hk1 : kvs.lookup "nodes" = some (.obj entries))
    (hk2 : kvs.lookup "update_lists" = some (.list items))
    (hkeys : (entries.map Prod.fst).Nodup)
    (hwf : ∀ e ∈ entries, e.2.get? "bl_idname" = some (.str (blIdOf e.2)) ∧
      (∀ csp, e.2.get? "custom_socket_props" = some csp →
        ∀ entries2, csp.asObj = some entries2 →
        ∀ se ∈ entries2, ∀ idx, se.1.toInt? = some idx →
          (pyIndex idx (env.inSocketCount (blIdOf e.2))).isSome))
    (hnm0 : st.nameMap = [])
    (hfresh : (st.tree.nodes.map Prod.fst ++
      entries.map (fun e => rename e.1)).Nodup)
    (hitems : ∀ it ∈ items, ∃ a i b j ea eb,
      it = JVal.list [.str a, .int i, .str b, .int j] ∧
      ea ∈ entries ∧ ea.1 = a ∧ eb ∈ entries ∧ eb.1 = b ∧
      0 ≤ i ∧ i < (env.outSocketCount (blIdOf ea.2) : Int) ∧
      0 ≤ j ∧ j < (env.inSocketCount (blIdOf eb.2) : Int)) :
    ∃ stF, importBody env (.obj kvs) st = (.ok (), stF) ∧
      stF.tree.nodes = st.tree.nodes ++
        entries.map (fun e => (rename e.1, blIdOf e.2)) ∧
      stF.nameMap = entries.map (fun e => (e.1, rename e.1)) ∧
      stF.tree.links = st.tree.links ++
        items.map (fun it => tupleSpec rename (tupleOfJ it)) ∧
      stF.tree.frozen = st.tree.frozen := by
  -- the node loop
  have hnl := nodeLoop_result env rename hnew entries st hwf
  obtain ⟨n0, n1, n2, n3, n4⟩ := hnl
  have hnm : (seqSteps (processNode env) entries st).2.nameMap =
      entries.map (fun e => (e.1, rename e.1)) := by
    rw [n2, hnm0, foldl_dictInsert_append rename entries []
      (fun e _ => rfl) hkeys]
    rfl
  cases hs : seqSteps (processNode env) entries st with
  | mk r stN =>
      rw [hs] at n0 n1 hnm n3 n4
      dsimp at n0 n1 hnm n3 n4
      subst n0
      -- the links read
      have hshape : ∀ it ∈ items, ∃ t, asTuple4 it = some t := by
        intro it hit
        obtain ⟨a, i, b, j, _, _, hform, _⟩ := hitems it hit
        exact ⟨(.str a, .int i, .str b, .int j), by rw [hform]; rfl⟩
      have htg := takeGoodLinks_all items hshape
      -- the link loop
      have hmapkeys : ((entries.map (fun e => (e.1, rename e.1))).map
          Prod.fst) = entries.map Prod.fst := by
        simp
      have hnskeys : ((st.tree.nodes ++
          entries.map (fun e => (rename e.1, blIdOf e.2))).map
          Prod.fst).Nodup := by
        rw [List.map_append]
        simpa [List.map_map, Function.comp] using hfresh
      have hconds : ∀ t ∈ items.map tupleOfJ, ∃ a i b j bla blb,
          t = (JVal.str a, JVal.int i, JVal.str b, JVal.int j) ∧
          stN.nameMap.lookup a = some (rename a) ∧
          stN.nameMap.lookup b = some (rename b) ∧
          stN.tree.nodes.lookup (rename a) = some bla ∧
          stN.tree.nodes.lookup (rename b) = some blb ∧
          0 ≤ i ∧ i < (env.outSocketCount bla : Int) ∧
          0 ≤ j ∧ j < (env.inSocketCount blb : Int) := by
        intro t ht
        obtain ⟨it, hit, hteq⟩ := List.mem_map.mp ht
        obtain ⟨a, i, b, j, ea, eb, hform, hea, heaa, heb, hebb,
          hi0, hi1, hj0, hj1⟩ := hitems it hit
        have hteq2 : t = (JVal.str a, JVal.int i, JVal.str b, JVal.int j) := by
          rw [← hteq, hform]
          rfl
        refine ⟨a, i, b, j, blIdOf ea.2, blIdOf eb.2, hteq2, ?_, ?_,
          ?_, ?_, hi0, hi1, hj0, hj1⟩
        · rw [hnm]
          refine lookup_eq_of_mem_nodup _ a (rename a) ?_ ?_
          · rw [hmapkeys]; exact hkeys
          · subst heaa
            exact List.mem_map_of_mem (fun e => (e.1, rename e.1)) hea
        · rw [hnm]
          refine lookup_eq_of_mem_nodup _ b (rename b) ?_ ?_
          · rw [hmapkeys]; exact hkeys
          · subst hebb
            exact List.mem_map_of_mem (fun e => (e.1, rename e.1)) heb
        · rw [n1]
          refine lookup_eq_of_mem_nodup _ (rename a) (blIdOf ea.2)
            hnskeys ?_
          refine List.mem_append_right _ ?_
          subst heaa
          exact List.mem_map_of_mem (fun e => (rename e.1, blIdOf e.2)) hea
        · rw [n1]
          refine lookup_eq_of_mem_nodup _ (rename b) (blIdOf eb.2)
            hnskeys ?_
          refine List.mem_append_right _ ?_
          subst hebb
          exact List.mem_map_of_mem (fun e => (rename e.1, blIdOf e.2)) heb
      have hll := linkLoop_result env rename (items.map tupleOfJ) stN hconds
      obtain ⟨l1, l2, l3, l4, l5⟩ := hll
      -- assemble
      refine ⟨(items.map tupleOfJ).foldl (fun s t => processLink env t s) stN,
        ?_, ?_, ?_, ?_, ?_⟩
      · unfold importBody
        dsimp only
        simp only [hk1]
        have hred : (if false = true then addFailStep st "Reading nodes"
            else st) = st := by simp
        rw [hred, hs]
        dsimp only
        simp only [readLinks, hk2, htg]
        have hfold : takeGoodLinks items = (items.map tupleOfJ, false) := by
          rw [htg]
          rfl
        rfl
      · rw [l2, n1]
      · rw [l3, hnm]
      · rw [l1, n3, List.map_map]
        rfl
      · rw [l4, n4]

/-- C4.  For every input structure with a `"nodes"` mapping (entries
with distinct names, each carrying a `bl_idname`, and whose
socket-index lookups — if the entry carries `custom_socket_props` —
all succeed) and an `"update_lists"` list of 4-tuples naming those
entries with in-range socket indices, under a host that creates every
node and assigns it the name `rename` of the requested one,
`import_into_tree` creates one node per entry with the recorded
`bl_idname` under the host-assigned name, records the name
translation, and creates one link per 4-tuple from output socket `i`
of the node created for `from_node` to input socket `j` of the node
created for `to_node`, using the new names the host assigned.  All
other per-entry failures (attributes, properties, socket properties)
are merely counted and change neither the nodes nor the links. -/
theorem import_rebuilds_graph (env : HostEnv) (rename : String → String)
    (hnew : ∀ ns bl r, env.newNode ns bl r = some (rename r))
    (kvs entries : List (String × JVal)) (items : List JVal)
    (tree0 : TreeState)
    (hk1 : kvs.lookup "nodes" = some (.obj entries))
    (hk2 : kvs.lookup "update_lists" = some (.list items))
    (hkeys : (entries.map Prod.fst).Nodup)
    (hwf : ∀ e ∈ entries, e.2.get? "bl_idname" = some (.str (blIdOf e.2)) ∧
      (∀ csp, e.2.get? "custom_socket_props" = some csp →
        ∀ entries2, csp.asObj = some entries2 →
        ∀ se ∈ entries2, ∀ idx, se.1.toInt? = some idx →
          (pyIndex idx (env.inSocketCount (blIdOf e.2))).isSome))
    (hfresh : (tree0.nodes.map Prod.fst ++
      entries.map (fun e => rename e.1)).Nodup)
    (hitems : ∀ it ∈ items, ∃ a i b j ea eb,
      it = JVal.list [.str a, .int i, .str b, .int j] ∧
      ea ∈ entries ∧ ea.1 = a ∧ eb ∈ entries ∧ eb.1 = b ∧
      0 ≤ i ∧ i < (env.outSocketCount (blIdOf ea.2) : Int) ∧
      0 ≤ j ∧ j < (env.inSocketCount (blIdOf eb.2) : Int)) :
    (import_into_tree env (.obj kvs) tree0).1 = .ok () ∧
    (import_into_tree env (.obj kvs) tree0).2.tree.nodes =
      tree0.nodes ++ entries.map (fun e => (rename e.1, blIdOf e.2)) ∧
    (import_into_tree env (.obj kvs) tree0).2.nameMap =
      entries.map (fun e => (e.1, rename e.1)) ∧
    (import_into_tree env (.obj kvs) tree0).2.tree.links =
      tree0.links ++ items.map (fun it => tupleSpec rename (tupleOfJ it)) ∧
    (import_into_tree env (.obj kvs) tree0).2.tree.frozen = false := by
  obtain ⟨stF, hB, p1, p2, p3, p4⟩ := importBody_result env rename hnew
    kvs entries items
    { tree := freeze tree0, log := [], events := [], nameMap := [],
      sockVar := none }
    hk1 hk2 hkeys hwf rfl hfresh hitems
  unfold import_into_tree start_from_tree
  dsimp only
  rw [hB]
  dsimp only
  exact ⟨rfl, p1, p2, p3, rfl⟩

/-- The concrete node entries of the C4 witness. -/
def entriesW : List (String × JVal) :=
  [("A", .obj [("bl_idname", .str "T1")]),
   ("B", .obj [("bl_idname", .str "T2")])]

/-- The concrete `update_lists` of the C4 witness. -/
def itemsW : List JVal :=
  [.list [.str "A", .int 0, .str "B", .int 1]]

/-- The concrete serialized structure of the C4 witness. -/
def kvsW : List (String × JVal) :=
  [("nodes", .obj entriesW), ("update_lists", .list itemsW)]

/-- Witness for C4: two nodes and one link, rebuilt exactly. -/
theorem import_rebuilds_graph_witness :
    (import_into_tree envOk (.obj kvsW) emptyTree).1 = .ok () ∧
    (import_into_tree envOk (.obj kvsW) emptyTree).2.tree.nodes =
      emptyTree.nodes ++
        entriesW.map (fun e => ((fun r => r) e.1, blIdOf e.2)) ∧
    (import_into_tree envOk (.obj kvsW) emptyTree).2.nameMap =
      entriesW.map (fun e => (e.1, (fun r => r) e.1)) ∧
    (import_into_tree envOk (.obj kvsW) emptyTree).2.tree.links =
      emptyTree.links ++
        itemsW.map (fun it => tupleSpec (fun r => r) (tupleOfJ it)) ∧
    (import_into_tree envOk (.obj kvsW) emptyTree).2.tree.frozen = false := by
  refine import_rebuilds_graph envOk (fun r => r) (fun _ _ _ => rfl)
    kvsW entriesW itemsW emptyTree rfl rfl (by simp [entriesW]) ?_ ?_ ?_
  · intro e he
    simp [entriesW] at he
    rcases he with he | he <;> subst he
    · refine ⟨rfl, ?_⟩
      intro csp hcsp
      rw [show (("A", JVal.obj [("bl_idname", JVal.str "T1")]) :
          String × JVal).2.get? "custom_socket_props" = none from rfl]
        at hcsp
      cases hcsp
    · refine ⟨rfl, ?_⟩
      intro csp hcsp
      rw [show (("B", JVal.obj [("bl_idname", JVal.str "T2")]) :
          String × JVal).2.get? "custom_socket_props" = none from rfl]
        at hcsp
      cases hcsp
  · simp [entriesW, emptyTree]
  · intro it hit
    simp [itemsW] at hit
    subst hit
    refine ⟨"A", 0, "B", 1, ("A", .obj [("bl_idname", .str "T1")]),
      ("B", .obj [("bl_idname", .str "T2")]), rfl, ?_, rfl, ?_, rfl,
      by decide, ?_, by decide, ?_⟩
    · simp [entriesW]
    · simp [entriesW]
    · show (0 : Int) < (envOk.inSocketCount "T1" : Int)
      decide
    · show (1 : Int) < (envOk.inSocketCount "T2" : Int)
      decide

end Sverchok
